import Mathlib

/-!
Verification of the invoice-generator component
(`src/src/app/invoice-generator.tsx`).

The component is a single React function with six pieces of state
(four header strings, a list of line items, a list of toasts) and a
handful of plain functions over them.  We embed those functions
shallowly: JavaScript numbers become `ℚ` (the arithmetic in scope is
exact on the decimals involved), the fallible validation becomes an
`Option String` carrying the first error message, and the effectful
export (`handleDownload`) becomes a pure function returning the list
of observable events it performs (file save, toast emission).
-/

namespace InvoiceGen

/-- A line item, from the `LineItem` interface of the source:
`{ id: string; description: string; quantity: number; unitPrice: number }`. -/
structure LineItem where
  id : String
  description : String
  quantity : ℚ
  unitPrice : ℚ
deriving DecidableEq, Repr

/-- The four header fields held in component state
(`companyName`, `customerName`, `invoiceNumber`, `invoiceDate`). -/
structure Header where
  companyName : String
  customerName : String
  invoiceNumber : String
  invoiceDate : String
deriving DecidableEq, Repr

/-- A toast notification, from the `Toast` interface of the source:
`{ id: string; message: string; type: 'error' | 'success' }`. -/
inductive ToastType where
  | error
  | success
deriving DecidableEq, Repr

structure Toast where
  id : String
  message : String
  type : ToastType
deriving DecidableEq, Repr

/-- A well-typed field/value pair for `updateLineItem`.  The source takes
`field: keyof LineItem` and `value: string | number` separately; pairing
them captures exactly the type-correct invocations (`field` may be any
of the four keys of `LineItem`, including `id`). -/
inductive FieldUpdate where
  | id (v : String)
  | description (v : String)
  | quantity (v : ℚ)
  | unitPrice (v : ℚ)
deriving DecidableEq, Repr

/-- `String.prototype.trim()`: strip leading and trailing whitespace.
(Defined structurally over the character list so that it computes by
kernel reduction; Lean's own `String.trim` is extensionally the same
function but is defined by well-founded recursion on byte positions.) -/
def jsTrim (s : String) : String :=
  ⟨((s.data.dropWhile Char.isWhitespace).reverse.dropWhile
      Char.isWhitespace).reverse⟩

/-- The object spread `{ ...item, [field]: value }` of the source:
replace the named field, keep the rest. -/
def setField (it : LineItem) : FieldUpdate → LineItem
  | .id v => { it with id := v }
  | .description v => { it with description := v }
  | .quantity v => { it with quantity := v }
  | .unitPrice v => { it with unitPrice := v }

/-- `addLineItem`: appends `{ id: uuidv4(), description: '', quantity: 0,
unitPrice: 0 }` to the list.  The uuid produced by `uuidv4()` is passed
in as the argument `nid`. -/
def addLineItem (items : List LineItem) (nid : String) : List LineItem :=
  items ++ [{ id := nid, description := "", quantity := 0, unitPrice := 0 }]

/-- `updateLineItem(id, field, value)`:
`lineItems.map(item => item.id === id ? { ...item, [field]: value } : item)`. -/
def updateLineItem (items : List LineItem) (tid : String) (fu : FieldUpdate) :
    List LineItem :=
  items.map (fun item => if item.id = tid then setField item fu else item)

/-- `removeLineItem(id)`: `lineItems.filter(item => item.id !== id)`. -/
def removeLineItem (items : List LineItem) (tid : String) : List LineItem :=
  items.filter (fun item => item.id != tid)

/-- `calculateSubtotal`:
`lineItems.reduce((sum, item) => sum + item.quantity * item.unitPrice, 0)`. -/
def calculateSubtotal (items : List LineItem) : ℚ :=
  items.foldl (fun sum item => sum + item.quantity * item.unitPrice) 0

/-- The tax expression of the source, `const tax = subtotal * 0.1`
(also rendered as `calculateSubtotal() * 0.1`). -/
def taxOf (items : List LineItem) : ℚ :=
  calculateSubtotal items * 0.1

/-- `calculateTotal`: computes the subtotal, a 10% tax on it, and their sum. -/
def calculateTotal (items : List LineItem) : ℚ :=
  let subtotal := calculateSubtotal items
  let tax := subtotal * 0.1
  subtotal + tax

/-- The per-item loop of `validateForm`: for each item in order, check
description (trimmed) non-empty, `quantity <= 0`, `unitPrice < 0`,
returning the first failing check's toast message. -/
def firstItemError : List LineItem → Option String
  | [] => none
  | item :: rest =>
    if (jsTrim item.description) = "" then
      some "All items must have a description"
    else if item.quantity ≤ 0 then
      some "All items must have a quantity greater than 0"
    else if item.unitPrice < 0 then
      some "All items must have a unit price of 0 or greater"
    else firstItemError rest

/-- `validateForm`, as the message of the first failing rule (`none` means
the source returns `true`; `some msg` means it calls `showToast(msg,
'error')` and returns `false`).  The guard `!s.trim()` on a string is
`jsTrim s = ""`; `!invoiceDate` (untrimmed) is `invoiceDate = ""`. -/
def validateForm (h : Header) (items : List LineItem) : Option String :=
  if (jsTrim h.companyName) = "" then some "Company name is required"
  else if (jsTrim h.customerName) = "" then some "Customer name is required"
  else if (jsTrim h.invoiceNumber) = "" then some "Invoice number is required"
  else if h.invoiceDate = "" then some "Invoice date is required"
  else if items.length = 0 then some "At least one item is required"
  else firstItemError items

/-- `Number.prototype.toFixed(2)` on an exact rational: the ECMA-262 rule
picks the integer `n` with `n / 100` closest to the value, breaking ties
towards the larger `n`, then prints `n / 100` with two decimals. -/
def toFixed2 (q : ℚ) : String :=
  let n : ℤ := (q * 100 + 1 / 2).floor
  let sign := if n < 0 then "-" else ""
  let m := n.natAbs
  sign ++ toString (m / 100) ++ "." ++
    (if m % 100 < 10 then "0" else "") ++ toString (m % 100)

/-- `Number.prototype.toString()` for the quantity cell, modelled on exact
rationals: integers print without a decimal point; the fraction rendering
for non-integers is a stand-in (the claims in scope never depend on it,
only on this being a fixed function of the value). -/
def numToString (q : ℚ) : String :=
  if q.den = 1 then toString q.num
  else toString q.num ++ "/" ++ toString q.den

/-- One jsPDF drawing command issued by `handleDownload`. -/
inductive PdfCmd where
  | setFontSize (n : ℚ)
  | textCenter (s : String) (x y : ℚ)
  | text (s : String) (x y : ℚ)
  | autoTable (startY : ℚ) (head : List (List String)) (body : List (List String))
deriving DecidableEq, Repr

/-- The document built by `handleDownload` once validation passes: header
texts, the line-item table, then the totals block at
`lastAutoTable.finalY + 10`.  jsPDF computes `lastAutoTable.finalY` from
the rendered table; we model it as a fixed function `fy` of the number of
body rows (it is a deterministic function of the table contents, whose
exact value the claims never need). -/
def renderPdf (fy : ℕ → ℚ) (h : Header) (items : List LineItem) : List PdfCmd :=
  let tableData := items.map (fun item =>
    [item.description,
     numToString item.quantity,
     "$" ++ toFixed2 item.unitPrice,
     "$" ++ toFixed2 (item.quantity * item.unitPrice)])
  let finalY := fy items.length + 10
  [ .setFontSize 20,
    .textCenter "Invoice" 105 20,
    .setFontSize 12,
    .text ("Company: " ++ h.companyName) 20 40,
    .text ("Customer: " ++ h.customerName) 20 50,
    .text ("Invoice Number: " ++ h.invoiceNumber) 20 60,
    .text ("Date: " ++ h.invoiceDate) 20 70,
    .autoTable 80 [["Description", "Quantity", "Unit Price", "Total"]] tableData,
    .text ("Subtotal: $" ++ toFixed2 (calculateSubtotal items)) 140 finalY,
    .text ("Tax (10%): $" ++ toFixed2 (calculateSubtotal items * 0.1)) 140 (finalY + 10),
    .text ("Total: $" ++ toFixed2 (calculateTotal items)) 140 (finalY + 20) ]

/-- An observable effect of `handleDownload`: `doc.save(name)` with the
document drawn so far, or `showToast(msg, type)`. -/
inductive Event where
  | save (name : String) (doc : List PdfCmd)
  | toast (msg : String) (type : ToastType)
deriving DecidableEq, Repr

/-- `handleDownload` as the ordered list of observable events it performs:
if `validateForm` fails it returns after the validator's single error
toast; otherwise it builds the document, saves it as `invoice.pdf`, and
then emits the success toast. -/
def handleDownload (fy : ℕ → ℚ) (h : Header) (items : List LineItem) :
    List Event :=
  match validateForm h items with
  | some msg => [.toast msg .error]
  | none =>
    [.save "invoice.pdf" (renderPdf fy h items),
     .toast "Invoice generated successfully" .success]

/-- Two export clicks in succession with the state unchanged in between:
the concatenation of the two event traces. -/
def runExportTwice (fy : ℕ → ℚ) (h : Header) (items : List LineItem) :
    List Event :=
  handleDownload fy h items ++ handleDownload fy h items

/-! ### Toast queue with timers

`showToast` appends a toast with a fresh uuid and schedules
`setToasts(prev => prev.filter(t => t.id !== id))` 5000 ms later.  We
model the component's toast state as the visible queue plus the set of
pending timers (toast id, absolute fire time), and time passing as
firing every timer that has come due. -/

structure ToastState where
  toasts : List Toast
  timers : List (String × ℤ)
deriving DecidableEq, Repr

/-- The `setTimeout` callback of `showToast`:
`prevToasts.filter(toast => toast.id !== id)`. -/
def removeToast (tid : String) (ts : List Toast) : List Toast :=
  ts.filter (fun t => t.id != tid)

/-- `showToast(message, type)` invoked at absolute time `now`, with `tid`
the uuid produced by `uuidv4()`: append the toast, schedule its removal
at `now + 5000`. -/
def showToast (now : ℤ) (msg : String) (ty : ToastType) (tid : String)
    (s : ToastState) : ToastState :=
  { toasts := s.toasts ++ [{ id := tid, message := msg, type := ty }],
    timers := s.timers ++ [(tid, now + 5000)] }

/-- Advance the clock to `now`: every timer scheduled at or before `now`
has fired (running its id-keyed removal); the rest remain pending. -/
def fireDue (now : ℤ) (s : ToastState) : ToastState :=
  { toasts := (s.timers.filter (fun p => p.2 ≤ now)).foldl
      (fun acc p => removeToast p.1 acc) s.toasts,
    timers := s.timers.filter (fun p => ¬ p.2 ≤ now) }

/-! ### Store operation sequences

For the id-stability/uniqueness invariant we close the three line-item
operations under sequencing.  `addLineItem`'s uuid argument stands for
the value `uuidv4()` returned at that call. -/

inductive Op where
  | add (nid : String)
  | update (tid : String) (fu : FieldUpdate)
  | remove (tid : String)
deriving DecidableEq, Repr

def applyOp (items : List LineItem) : Op → List LineItem
  | .add nid => addLineItem items nid
  | .update tid fu => updateLineItem items tid fu
  | .remove tid => removeLineItem items tid

def applyOps (items : List LineItem) (ops : List Op) : List LineItem :=
  ops.foldl applyOp items

/-- The ids of the items, in list order. -/
def idsOf (items : List LineItem) : List String :=
  items.map (fun item => item.id)

/-- Does this update target the `id` field? -/
def isIdUpdate : FieldUpdate → Bool
  | .id _ => true
  | _ => false

/-- States reachable from the empty store by the three operations as the
component actually invokes them: `addLineItem` receives a fresh uuid
(`uuidv4()` never repeats an id in use), and the UI only ever calls
`updateLineItem` with the `description`, `quantity` or `unitPrice`
field. -/
inductive Reach : List LineItem → Prop where
  | nil : Reach []
  | add (s : List LineItem) (nid : String) (hs : Reach s)
      (hfresh : nid ∉ idsOf s) : Reach (addLineItem s nid)
  | update (s : List LineItem) (tid : String) (fu : FieldUpdate)
      (hs : Reach s) (hfu : isIdUpdate fu = false) :
      Reach (updateLineItem s tid fu)
  | remove (s : List LineItem) (tid : String) (hs : Reach s) :
      Reach (removeLineItem s tid)

/-! ### The validator's rule list

The spec describes `validateForm` as a fixed ordered list of rules, the
reported message being the first failing rule's.  `rules` writes that
list down (from the spec's enumeration) and `firstFailing` picks the
first entry whose check is false; claim C2 relates `validateForm` to
this characterisation. -/

/-- The three per-item rules, for each item in insertion order. -/
def itemRules : List LineItem → List (Bool × String)
  | [] => []
  | item :: rest =>
    ((jsTrim item.description) != "", "All items must have a description") ::
    (decide (0 < item.quantity),
      "All items must have a quantity greater than 0") ::
    (decide (0 ≤ item.unitPrice),
      "All items must have a unit price of 0 or greater") ::
    itemRules rest

def rules (h : Header) (items : List LineItem) : List (Bool × String) :=
  [ ((jsTrim h.companyName) != "", "Company name is required"),
    ((jsTrim h.customerName) != "", "Customer name is required"),
    ((jsTrim h.invoiceNumber) != "", "Invoice number is required"),
    (h.invoiceDate != "", "Invoice date is required"),
    (items.length != 0, "At least one item is required") ] ++
  itemRules items

def firstFailing (rs : List (Bool × String)) : Option String :=
  (rs.find? (fun r => !r.1)).map (fun r => r.2)

/-! ### Concrete states used by the witnesses -/

/-- The filled header of the spec's end-to-end scenario A. -/
def demoHeader : Header := ⟨"Acme", "Bob", "INV-001", "2024-01-01"⟩

/-- The single line item of scenario A: "Widget", quantity 2, unit price 10. -/
def demoItems : List LineItem := [⟨"i1", "Widget", 2, 10⟩]

/-- A header with every field empty. -/
def emptyHeader : Header := ⟨"", "", "", ""⟩

/-! ## Theorems -/

lemma foldl_add_lineTotals (items : List LineItem) (c : ℚ) :
    items.foldl (fun sum item => sum + item.quantity * item.unitPrice) c
      = c + (items.map (fun item => item.quantity * item.unitPrice)).sum := by
  induction items generalizing c with
  | nil => simp
  | cons hd tl ih => simp [ih, add_assoc]

/-- Claim C1: for every sequence of line items, `calculateSubtotal` equals
the sum over the items of `quantity * unitPrice`, and the subtotal of the
empty sequence is `0`. -/
theorem calculateSubtotal_eq_sum (items : List LineItem) :
    calculateSubtotal items
        = (items.map (fun item => item.quantity * item.unitPrice)).sum ∧
    calculateSubtotal [] = 0 := by
  refine ⟨?_, rfl⟩
  simpa using foldl_add_lineTotals items 0

/-- Claim C3: the tax is the subtotal times `0.1`, and `calculateTotal`
returns the subtotal plus that tax. -/
theorem taxOf_and_calculateTotal (items : List LineItem) :
    taxOf items = calculateSubtotal items * 0.1 ∧
    calculateTotal items = calculateSubtotal items + taxOf items :=
  ⟨rfl, rfl⟩

/-- Claim C10: `updateLineItem` never changes the number of line items,
whatever the id, field and value arguments are. -/
theorem updateLineItem_length (items : List LineItem) (tid : String)
    (fu : FieldUpdate) :
    (updateLineItem items tid fu).length = items.length := by
  simp [updateLineItem]

/-- Claim C6: `removeLineItem` keeps exactly the items whose id differs
from the argument, in their original order (the result is a sublist of
the input), and is a no-op when no item carries the id. -/
theorem removeLineItem_spec (items : List LineItem) (tid : String) :
    (removeLineItem items tid).Sublist items ∧
    (∀ it : LineItem, it ∈ removeLineItem items tid ↔ it ∈ items ∧ it.id ≠ tid) ∧
    ((∀ it ∈ items, it.id ≠ tid) → removeLineItem items tid = items) := by
  refine ⟨List.filter_sublist _, ?_, ?_⟩
  · intro it
    simp [removeLineItem, List.mem_filter]
  · intro hall
    apply List.filter_eq_self.mpr
    intro a ha
    simpa using hall a ha

/-- Witness for C6 at a concrete store: removing an absent id is a no-op. -/
theorem removeLineItem_spec_witness :
    removeLineItem [(⟨"a", "x", 1, 1⟩ : LineItem)] "zz"
      = [(⟨"a", "x", 1, 1⟩ : LineItem)] :=
  (removeLineItem_spec [⟨"a", "x", 1, 1⟩] "zz").2.2 (by decide)

/-- `b` agrees with `a` on every `LineItem` field other than the one the
update names. -/
def agreeExcept : FieldUpdate → LineItem → LineItem → Prop
  | .id _, a, b =>
    a.description = b.description ∧ a.quantity = b.quantity ∧
      a.unitPrice = b.unitPrice
  | .description _, a, b =>
    a.id = b.id ∧ a.quantity = b.quantity ∧ a.unitPrice = b.unitPrice
  | .quantity _, a, b =>
    a.id = b.id ∧ a.description = b.description ∧ a.unitPrice = b.unitPrice
  | .unitPrice _, a, b =>
    a.id = b.id ∧ a.description = b.description ∧ a.quantity = b.quantity

lemma updateLineItem_not_found (items : List LineItem) (tid : String)
    (fu : FieldUpdate) (hall : ∀ it ∈ items, it.id ≠ tid) :
    updateLineItem items tid fu = items := by
  unfold updateLineItem
  have h : ∀ it ∈ items, (if it.id = tid then setField it fu else it) = id it :=
    fun it hit => if_neg (hall it hit)
  rw [List.map_congr_left h, List.map_id]

/-- Counterexample to Claim C5 as stated over every item list: when two
items share an id (a situation the claim's universal quantifier admits),
updating the matched field also rewrites the second item, so "all other
items unchanged" fails.  Item 0 carries the id, yet the item at
position 1 changes. -/
theorem updateLineItem_duplicate_ids_cex :
    ([(⟨"a", "x", 1, 1⟩ : LineItem), ⟨"a", "y", 2, 2⟩])[0]?.map
        (fun it => it.id) = some "a" ∧
    (updateLineItem [⟨"a", "x", 1, 1⟩, ⟨"a", "y", 2, 2⟩] "a"
        (.description "z"))[1]?
      ≠ ([(⟨"a", "x", 1, 1⟩ : LineItem), ⟨"a", "y", 2, 2⟩])[1]? := by
  decide

/-- Claim C5 amended: on an item list whose ids are pairwise distinct (the
store invariant), `updateLineItem` with an absent id is a no-op; with a
present id it rewrites exactly the matched position to the item with the
named field replaced — other fields of that item and every other position
are untouched. -/
theorem updateLineItem_frame (items : List LineItem) (tid : String)
    (fu : FieldUpdate) (hnd : (idsOf items).Nodup) :
    ((∀ it ∈ items, it.id ≠ tid) → updateLineItem items tid fu = items) ∧
    (∀ it : LineItem, agreeExcept fu (setField it fu) it) ∧
    (∀ (k : ℕ) (it : LineItem), items[k]? = some it → it.id = tid →
      (updateLineItem items tid fu)[k]? = some (setField it fu) ∧
      ∀ (j : ℕ) (jt : LineItem), j ≠ k → items[j]? = some jt →
        (updateLineItem items tid fu)[j]? = some jt) := by
  refine ⟨updateLineItem_not_found items tid fu, ?_, ?_⟩
  · intro it
    cases fu <;> simp [agreeExcept, setField]
  · intro k it hk htid
    have hmap : ∀ n : ℕ, (updateLineItem items tid fu)[n]?
        = items[n]?.map (fun item => if item.id = tid then setField item fu else item) :=
      fun n => List.getElem?_map _ items n
    refine ⟨by rw [hmap, hk]; simp [htid], ?_⟩
    intro j jt hjk hj
    have hjid : jt.id ≠ tid := by
      intro he
      apply hjk
      have hkids : (idsOf items)[k]? = some tid := by
        simp [idsOf, List.getElem?_map, hk, htid]
      have hjids : (idsOf items)[j]? = some tid := by
        simp [idsOf, List.getElem?_map, hj, he]
      have hjlen : j < (idsOf items).length := by
        obtain ⟨hlt, -⟩ := List.getElem?_eq_some.mp hjids
        exact hlt
      exact List.getElem?_inj hjlen hnd (hjids.trans hkids.symm)
    rw [hmap, hj]
    simp [hjid]

/-- Witness for the amended C5 at a concrete two-item store with distinct
ids: the matched item gets the new quantity, the other is untouched. -/
theorem updateLineItem_frame_witness :
    (updateLineItem [⟨"a", "x", 1, 1⟩, ⟨"b", "y", 2, 2⟩] "b"
        (.quantity 5))[1]? = some (setField ⟨"b", "y", 2, 2⟩ (.quantity 5)) ∧
    (updateLineItem [⟨"a", "x", 1, 1⟩, ⟨"b", "y", 2, 2⟩] "b"
        (.quantity 5))[0]? = some (⟨"a", "x", 1, 1⟩ : LineItem) := by
  have h := (updateLineItem_frame [⟨"a", "x", 1, 1⟩, ⟨"b", "y", 2, 2⟩] "b"
    (.quantity 5) (by decide)).2.2 1 ⟨"b", "y", 2, 2⟩ (by decide) (by decide)
  exact ⟨h.1, h.2 0 ⟨"a", "x", 1, 1⟩ (by decide) (by decide)⟩

lemma ids_updateLineItem (items : List LineItem) (tid : String)
    (fu : FieldUpdate) (hfu : isIdUpdate fu = false) :
    idsOf (updateLineItem items tid fu) = idsOf items := by
  unfold idsOf updateLineItem
  rw [List.map_map]
  apply List.map_congr_left
  intro a ha
  simp only [Function.comp]
  split
  · cases fu with
    | id v => simp [isIdUpdate] at hfu
    | description v => simp [setField]
    | quantity v => simp [setField]
    | unitPrice v => simp [setField]
  · rfl

lemma ids_addLineItem (items : List LineItem) (nid : String) :
    idsOf (addLineItem items nid) = idsOf items ++ [nid] := by
  simp [idsOf, addLineItem]

lemma ids_removeLineItem_sublist (items : List LineItem) (tid : String) :
    (idsOf (removeLineItem items tid)).Sublist (idsOf items) :=
  (List.filter_sublist items).map _

/-- Counterexample to Claim C7 as stated over every operation sequence:
`updateLineItem` accepts `field = id` (it is a `keyof LineItem`), and an
id-field update both changes an existing item's id and can duplicate
another item's id. -/
theorem ids_not_unique_cex :
    idsOf (applyOps [] [.add "a", .add "b", .update "a" (.id "b")])
        = ["b", "b"] ∧
    ¬ (idsOf (applyOps [] [.add "a", .add "b", .update "a" (.id "b")])).Nodup := by
  decide

/-- Claim C7 amended: along every operation sequence in which each
`addLineItem` receives a fresh uuid and `updateLineItem` is never invoked
on the `id` field (the only invocations the component makes), the ids
stay pairwise distinct, updates leave the id sequence untouched, adds
append exactly the new id, and removals keep the surviving ids in
order. -/
theorem ids_stable_unique (s : List LineItem) (hs : Reach s) :
    (idsOf s).Nodup ∧
    (∀ tid fu, isIdUpdate fu = false →
      idsOf (updateLineItem s tid fu) = idsOf s) ∧
    (∀ nid, idsOf (addLineItem s nid) = idsOf s ++ [nid]) ∧
    (∀ tid, (idsOf (removeLineItem s tid)).Sublist (idsOf s)) := by
  refine ⟨?_, fun tid fu hfu => ids_updateLineItem s tid fu hfu,
    fun nid => ids_addLineItem s nid,
    fun tid => ids_removeLineItem_sublist s tid⟩
  induction hs with
  | nil => simp [idsOf]
  | add s nid hrs hfresh ih =>
    rw [ids_addLineItem]
    simp [List.nodup_append, ih, hfresh]
  | update s tid fu hrs hfu ih =>
    rw [ids_updateLineItem s tid fu hfu]
    exact ih
  | remove s tid hrs ih =>
    exact ih.sublist (ids_removeLineItem_sublist s tid)

/-- Witness for the amended C7 at a concretely reached one-item store. -/
theorem ids_stable_unique_witness :
    (idsOf (addLineItem [] "a")).Nodup :=
  (ids_stable_unique (addLineItem [] "a")
    (Reach.add [] "a" Reach.nil (by decide))).1

/-- Claim C4: when validation fails, the export emits exactly the
validator's error toast — no document is saved and no success toast is
emitted; when validation succeeds, the document is saved and the success
toast is emitted after it. -/
theorem handleDownload_events (fy : ℕ → ℚ) (h : Header)
    (items : List LineItem) :
    (∀ msg, validateForm h items = some msg →
      handleDownload fy h items = [.toast msg .error]) ∧
    (validateForm h items = none →
      handleDownload fy h items =
        [.save "invoice.pdf" (renderPdf fy h items),
         .toast "Invoice generated successfully" .success]) := by
  constructor
  · intro msg hm
    simp [handleDownload, hm]
  · intro hn
    simp [handleDownload, hn]

/-- Witness for C4: a concrete invalid state yields only the error toast;
the scenario-A state yields the save followed by the success toast. -/
theorem handleDownload_events_witness :
    handleDownload (fun _ => 100) emptyHeader []
        = [Event.toast "Company name is required" ToastType.error] ∧
    handleDownload (fun _ => 100) demoHeader demoItems
        = [Event.save "invoice.pdf" (renderPdf (fun _ => 100) demoHeader demoItems),
           Event.toast "Invoice generated successfully" ToastType.success] :=
  ⟨(handleDownload_events (fun _ => 100) emptyHeader []).1 _ (by decide),
   (handleDownload_events (fun _ => 100) demoHeader demoItems).2 (by decide)⟩

/-- Claim C9: on a valid state, two export clicks with the state unchanged
produce two file saves with identical document contents and two
independent success toasts. -/
theorem export_idempotent (fy : ℕ → ℚ) (h : Header) (items : List LineItem)
    (hval : validateForm h items = none) :
    runExportTwice fy h items =
      [.save "invoice.pdf" (renderPdf fy h items),
       .toast "Invoice generated successfully" .success,
       .save "invoice.pdf" (renderPdf fy h items),
       .toast "Invoice generated successfully" .success] := by
  simp [runExportTwice, handleDownload, hval]

/-- Witness for C9 at the scenario-A state. -/
theorem export_idempotent_witness :
    runExportTwice (fun _ => 100) demoHeader demoItems =
      [.save "invoice.pdf" (renderPdf (fun _ => 100) demoHeader demoItems),
       .toast "Invoice generated successfully" .success,
       .save "invoice.pdf" (renderPdf (fun _ => 100) demoHeader demoItems),
       .toast "Invoice generated successfully" .success] :=
  export_idempotent (fun _ => 100) demoHeader demoItems (by decide)

lemma firstItemError_eq_firstFailing (items : List LineItem) :
    firstItemError items = firstFailing (itemRules items) := by
  induction items with
  | nil => rfl
  | cons hd tl ih =>
    by_cases h1 : jsTrim hd.description = ""
    · simp [firstItemError, itemRules, firstFailing, h1]
    · by_cases h2 : hd.quantity ≤ 0
      · have h2' : ¬ (0 < hd.quantity) := not_lt.mpr h2
        simp [firstItemError, itemRules, firstFailing, h1, h2, h2']
      · have h2' : 0 < hd.quantity := not_le.mp h2
        by_cases h3 : hd.unitPrice < 0
        · have h3' : ¬ (0 ≤ hd.unitPrice) := not_le.mpr h3
          simp [firstItemError, itemRules, firstFailing, h1, h2, h2', h3, h3']
        · have h3' : 0 ≤ hd.unitPrice := not_lt.mp h3
          simp [firstItemError, itemRules, firstFailing, h1, h2, h2', h3, h3', ih]

/-- Claim C2: `validateForm` returns exactly the message of the first
failing rule of the spec's ordered rule list (company name, customer
name, invoice number, invoice date, items non-empty, then per item in
insertion order: description, quantity, unit price); in particular a
header missing both company and customer name reports
"Company name is required". -/
theorem validateForm_first_failing (h : Header) (items : List LineItem) :
    validateForm h items = firstFailing (rules h items) ∧
    (jsTrim h.companyName = "" → jsTrim h.customerName = "" →
      validateForm h items = some "Company name is required") := by
  constructor
  · by_cases h1 : jsTrim h.companyName = ""
    · simp [validateForm, rules, firstFailing, h1]
    · by_cases h2 : jsTrim h.customerName = ""
      · simp [validateForm, rules, firstFailing, h1, h2]
      · by_cases h3 : jsTrim h.invoiceNumber = ""
        · simp [validateForm, rules, firstFailing, h1, h2, h3]
        · by_cases h4 : h.invoiceDate = ""
          · simp [validateForm, rules, firstFailing, h1, h2, h3, h4]
          · by_cases h5 : items.length = 0
            · simp [validateForm, rules, firstFailing, h1, h2, h3, h4, h5]
            · simp [validateForm, rules, firstFailing, h1, h2, h3, h4, h5,
                firstItemError_eq_firstFailing items]
  · intro hc _
    simp [validateForm, hc]

/-- Witness for C2 at a header missing both company and customer name. -/
theorem validateForm_first_failing_witness :
    validateForm emptyHeader [] = some "Company name is required" :=
  (validateForm_first_failing emptyHeader []).2 (by decide) (by decide)

lemma mem_removeToast (t : Toast) (tid : String) (ts : List Toast) :
    t ∈ removeToast tid ts ↔ t ∈ ts ∧ t.id ≠ tid := by
  simp [removeToast, List.mem_filter]

lemma mem_foldl_removeToast (t : Toast) (ps : List (String × ℤ))
    (ts : List Toast) :
    t ∈ ps.foldl (fun acc p => removeToast p.1 acc) ts ↔
      t ∈ ts ∧ ∀ p ∈ ps, t.id ≠ p.1 := by
  induction ps generalizing ts with
  | nil => simp
  | cons hd tl ih =>
    rw [List.foldl_cons, ih]
    rw [mem_removeToast]
    constructor
    · rintro ⟨⟨hmem, hhd⟩, htl⟩
      exact ⟨hmem, by
        intro p hp
        rcases List.mem_cons.mp hp with rfl | hp'
        · exact hhd
        · exact htl p hp'⟩
    · rintro ⟨hmem, hall⟩
      exact ⟨⟨hmem, hall hd (List.mem_cons_self hd tl)⟩,
        fun p hp => hall p (List.mem_cons_of_mem hd hp)⟩

/-- Claim C8: `showToast` appends the toast at the end of the queue with
the fresh uuid, schedules a removal keyed strictly by that id at
`now + 5000`; a removal keyed to any other id leaves it in place, a
second push with identical text stays an independent entry, and with the
clock advanced by 4999 ms the toast is still present while with the
clock advanced by 5001 ms it is gone. -/
theorem showToast_timing (s : ToastState) (msg : String) (ty : ToastType)
    (tid : String) (T : ℤ)
    (hfresh : ∀ p ∈ s.timers, p.1 ≠ tid) :
    (showToast T msg ty tid s).toasts = s.toasts ++ [⟨tid, msg, ty⟩] ∧
    (showToast T msg ty tid s).timers = s.timers ++ [(tid, T + 5000)] ∧
    (∀ other, other ≠ tid →
      (⟨tid, msg, ty⟩ : Toast) ∈
        removeToast other (showToast T msg ty tid s).toasts) ∧
    (∀ (T2 : ℤ) (tid2 : String),
      (showToast T2 msg ty tid2 (showToast T msg ty tid s)).toasts
        = s.toasts ++ [⟨tid, msg, ty⟩, ⟨tid2, msg, ty⟩]) ∧
    (⟨tid, msg, ty⟩ : Toast) ∈
      (fireDue (T + 4999) (showToast T msg ty tid s)).toasts ∧
    (∀ t ∈ (fireDue (T + 5001) (showToast T msg ty tid s)).toasts,
      t.id ≠ tid) := by
  refine ⟨rfl, rfl, ?_, ?_, ?_, ?_⟩
  · intro other hother
    rw [mem_removeToast]
    exact ⟨List.mem_append_right _ (List.mem_singleton.mpr rfl),
      fun he => hother he.symm⟩
  · intro T2 tid2
    simp [showToast]
  · show (⟨tid, msg, ty⟩ : Toast) ∈
      ((showToast T msg ty tid s).timers.filter
          (fun p => decide (p.2 ≤ T + 4999))).foldl
        (fun acc p => removeToast p.1 acc) (showToast T msg ty tid s).toasts
    rw [mem_foldl_removeToast]
    constructor
    · exact List.mem_append_right _ (List.mem_singleton.mpr rfl)
    · intro p hp
      rw [List.mem_filter] at hp
      obtain ⟨hpmem, hple⟩ := hp
      rcases List.mem_append.mp hpmem with h1 | h2
      · exact fun he => hfresh p h1 he.symm
      · rw [List.mem_singleton] at h2
        subst h2
        simp only [decide_eq_true_eq] at hple
        omega
  · intro t ht
    replace ht : t ∈ ((showToast T msg ty tid s).timers.filter
          (fun p => decide (p.2 ≤ T + 5001))).foldl
        (fun acc p => removeToast p.1 acc) (showToast T msg ty tid s).toasts := ht
    rw [mem_foldl_removeToast] at ht
    obtain ⟨-, hall⟩ := ht
    apply hall (tid, T + 5000)
    rw [List.mem_filter]
    refine ⟨List.mem_append_right _ (List.mem_singleton.mpr rfl), ?_⟩
    simp only [decide_eq_true_eq]
    omega

/-- Witness for C8: a toast pushed at time 0 into an empty queue is still
present once the clock reads 4999. -/
theorem showToast_timing_witness :
    (⟨"t1", "hi", ToastType.success⟩ : Toast) ∈
      (fireDue ((0 : ℤ) + 4999)
        (showToast 0 "hi" ToastType.success "t1" ⟨[], []⟩)).toasts :=
  (showToast_timing ⟨[], []⟩ "hi" ToastType.success "t1" 0
    (by simp)).2.2.2.2.1

end InvoiceGen
